import Mathlib

/-!
Verification of the schema-to-TypeScript projection core of the
gql-types-generator repository.  All definitions below are shallow
embeddings of the functions in `src/utils/misc.ts` and the parser module
(entity extraction, selection projection, operation assembly); strings
model JavaScript strings as lists of characters, mutable arrays are
modelled by threading explicit lists.
-/

namespace GqlGen

/-! ### Scalar map (`gqlScalarTypesMap`, `isGQLScalarType`, `transpileGQLTypeName`) -/

/-- Embeds the `gqlScalarTypesMap` constant: which GQL scalar converts to
which TypeScript type, in the source's key order. -/
def gqlScalarTypesMap : List (String × String) :=
  [("Boolean", "boolean"), ("Float", "number"), ("String", "string"),
   ("Int", "number"), ("ID", "any")]

/-- `gqlScalarTypes = Object.keys(gqlScalarTypesMap)`. -/
def gqlScalarTypes : List String := gqlScalarTypesMap.map (·.1)

/-- Embeds `isGQLScalarType`. -/
def isGQLScalarType (value : String) : Bool := gqlScalarTypes.contains value

/-- Embeds `transpileGQLTypeName`: keeps custom names, maps scalars. -/
def transpileGQLTypeName (value : String) : String :=
  if isGQLScalarType value then (gqlScalarTypesMap.lookup value).getD value
  else value

/-- Embeds `makeNullable`. -/
def makeNullable (type : String) : String := type ++ " | null"

/-! ### Type references

`TypeNode` embeds the graphql AST `TypeNode` (NamedType / ListType /
NonNullType); `GQLType` embeds the resolved schema-object view
(`GraphQLOutputType`/`GraphQLInputType`), where only wrapper structure and
the leaf name are relevant to the functions under verification. -/

inductive TypeNode where
  | namedType (name : String)
  | listType (type : TypeNode)
  | nonNullType (type : TypeNode)
deriving Repr, DecidableEq

inductive GQLType where
  | named (name : String)
  | list (ofType : GQLType)
  | nonNull (ofType : GQLType)
deriving Repr, DecidableEq

/-- The structural correspondence between a raw AST type node and the
resolved schema-object type it denotes. -/
def gqlTypeOfTypeNode : TypeNode → GQLType
  | .namedType n => .named n
  | .listType t => .list (gqlTypeOfTypeNode t)
  | .nonNullType t => .nonNull (gqlTypeOfTypeNode t)

/-- Embeds the `DefinitionWithImportTypes` record of `types.ts`. -/
structure DefinitionWithImportTypes where
  definition : String
  importTypes : List String
deriving Repr, DecidableEq

/-- The push step both resolvers run on import accumulators:
`if (!isGQLScalarType(t) && !acc.includes(t)) acc.push(t)`. -/
def pushName (acc : List String) (t : String) : List String :=
  if ¬ isGQLScalarType t ∧ t ∉ acc then acc ++ [t] else acc

/-- Embeds `getTypeNodeDefinition` (AST entry point).  The mutable
`importTypes` array is threaded explicitly; in the `ListType` branch the
source re-walks the inner result (`_importTypes.forEach`) pushing each
non-scalar name absent from the live array — modelled by the inner
`foldl`, which starts from the post-recursion list exactly as the mutated
array does. -/
def getTypeNodeDefinition (node : TypeNode) (importTypes : List String := [])
    (nullable : Bool := true) : DefinitionWithImportTypes :=
  match node with
  | .nonNullType t => getTypeNodeDefinition t importTypes false
  | .namedType name =>
    let definition := transpileGQLTypeName name
    let importTypes := pushName importTypes name
    let definition := if nullable then makeNullable definition else definition
    ⟨definition, importTypes⟩
  | .listType t =>
    let inner := getTypeNodeDefinition t importTypes true
    let importTypes := inner.importTypes.foldl pushName inner.importTypes
    let definition := inner.definition ++ "[]"
    let definition := if nullable then makeNullable definition else definition
    ⟨definition, importTypes⟩

/-- Embeds `getIOTypeDefinition` (resolved schema-object entry point). -/
def getIOTypeDefinition (type : GQLType) (importTypes : List String := [])
    (nullable : Bool := true) : DefinitionWithImportTypes :=
  match type with
  | .nonNull t => getIOTypeDefinition t importTypes false
  | .list t =>
    let inner := getIOTypeDefinition t importTypes true
    let importTypes := inner.importTypes.foldl pushName inner.importTypes
    let definition := inner.definition ++ "[]"
    let definition := if nullable then makeNullable definition else definition
    ⟨definition, importTypes⟩
  | .named name =>
    let definition := transpileGQLTypeName name
    let importTypes := pushName importTypes name
    let definition := if nullable then makeNullable definition else definition
    ⟨definition, importTypes⟩

/-! ### `toCamelCase` and naming

`toCamelCase` runs `text.replace(/[^\da-z].?/gi, m => m[1] ? m[1].toUpperCase() : '')`
and then uppercases the first character of the result; reading that first
character throws when the cleared string is empty, modelled by `Option`. -/

/-- The global regex replace of `toCamelCase`: an alphanumeric character
is kept (no match starts there); a non-alphanumeric character starts a
match that also consumes the next character when one exists and is not a
newline (`.` never matches `\n`); the match is replaced by the uppercased
consumed character, or by nothing when only the one character matched. -/
def clearChars : List Char → List Char
  | [] => []
  | [c] => if c.isAlphanum then [c] else []
  | c :: d :: rest2 =>
    if c.isAlphanum then c :: clearChars (d :: rest2)
    else if d = '\n' then clearChars (d :: rest2)
    else d.toUpper :: clearChars rest2

/-- Embeds `toCamelCase`; `none` models the TypeError raised by
`cleared[0].toUpperCase()` on an empty cleared string. -/
def toCamelCase (text : String) : Option String :=
  match clearChars text.toList with
  | [] => none
  | c :: rest => some (String.mk (c.toUpper :: rest))

/-- Embeds `getCompiledOperationName` (`name + toCamelCase(operation)`). -/
def getCompiledOperationName (name operation : String) : Option String :=
  (toCamelCase operation).map (fun s => name ++ s)

/-- Embeds `getCompiledOperationNamespaceName`
(`toCamelCase(name) + toCamelCase(operation)`). -/
def getCompiledOperationNamespaceName (name operation : String) : Option String :=
  match toCamelCase name, toCamelCase operation with
  | some a, some b => some (a ++ b)
  | _, _ => none

/-! ### `getSorter` -/

/-- AST definition-node kinds weighted by `getSorter`. -/
inductive TypeDefinitionKind where
  | scalarTypeDefinition
  | enumTypeDefinition
  | interfaceTypeDefinition
  | inputObjectTypeDefinition
  | unionTypeDefinition
  | objectTypeDefinition
deriving Repr, DecidableEq

/-- The part of a declaration AST node the sorter reads: its kind and its
source start position (`astNode.loc.start`). -/
structure AstNodeInfo where
  kind : TypeDefinitionKind
  locStart : Nat
deriving Repr, DecidableEq

/-- The slice of a `GraphQLNamedType` the sorter reads: the optional
declaration AST node. -/
structure GraphQLNamedTypeMeta where
  astNode : Option AstNodeInfo
deriving Repr, DecidableEq

/-- `DisplayType`: the only distinction `getSorter` draws is whether the
mode equals the source-order mode `'as-is'`. -/
inductive DisplayType where
  | asIs
  | defaultMode
deriving Repr, DecidableEq

/-- The `weights` table inside `getSorter`. -/
def weights : TypeDefinitionKind → Int
  | .scalarTypeDefinition => 0
  | .enumTypeDefinition => 1
  | .interfaceTypeDefinition => 2
  | .inputObjectTypeDefinition => 3
  | .unionTypeDefinition => 4
  | .objectTypeDefinition => 5

/-- Embeds the comparator returned by `getSorter`. -/
def getSorter (display : DisplayType) (a b : GraphQLNamedTypeMeta) : Int :=
  if a.astNode.isSome ∨ b.astNode.isSome then
    match a.astNode, b.astNode with
    | none, _ => -1
    | some _, none => 1
    | some na, some nb =>
      match display with
      | .asIs => (na.locStart : Int) - (nb.locStart : Int)
      | .defaultMode => weights na.kind - weights nb.kind
  else 0

/-! ### Schema model and the Field-Path Navigator (`getIn`) -/

/-- GraphQL named-type categories relevant to the parser module. -/
inductive TypeKind where
  | object
  | interface
  | scalar
  | enum
  | union
  | inputObject
deriving Repr, DecidableEq

/-- A field argument: name, description, declared type. -/
structure GQLArg where
  name : String
  description : Option String
  type : GQLType
deriving Repr, DecidableEq

/-- A field of an object/interface/input type, with its still-wrapped
declared type. -/
structure GQLField where
  name : String
  description : Option String
  type : GQLType
  args : List GQLArg
deriving Repr, DecidableEq

/-- A named type definition; the field map is an ordered association list
(JS object keys are unique and iteration-ordered). -/
structure NamedTypeDef where
  name : String
  kind : TypeKind
  description : Option String
  fields : List GQLField
deriving Repr, DecidableEq

/-- The schema: named-type environment plus configured operation roots. -/
structure GQLSchema where
  typeDefs : List NamedTypeDef
  queryType : Option NamedTypeDef
  mutationType : Option NamedTypeDef
  subscriptionType : Option NamedTypeDef
deriving Repr, DecidableEq

/-- Embeds `getFirstNonWrappingType`. -/
def getFirstNonWrappingType : GQLType → GQLType
  | .list t => getFirstNonWrappingType t
  | .nonNull t => getFirstNonWrappingType t
  | .named n => .named n

/-- In graphql-js a named leaf carries the schema type object itself; the
environment-style embedding recovers that object by name lookup.  A leaf
naming a type outside the environment behaves like a non-descendable
type, exactly as `getIn` treats a non-object, non-interface type. -/
def resolveNamed (schema : GQLSchema) : GQLType → Option NamedTypeDef
  | .named n => schema.typeDefs.find? (fun td => td.name == n)
  | _ => none

/-- Field-map access `fields[name]`. -/
def lookupField (fields : List GQLField) (name : String) : Option GQLField :=
  fields.find? (fun f => f.name == name)

/-- `path.split('.')`, accumulator-style over the character list. -/
def splitDotAux : List Char → List Char → List String
  | [], cur => [String.mk cur.reverse]
  | c :: cs, cur =>
    if c = '.' then String.mk cur.reverse :: splitDotAux cs []
    else splitDotAux cs (c :: cur)

/-- `path.split('.')`. -/
def splitDot (s : String) : List String := splitDotAux s.toList []

/-- The loop of `getIn` over the remaining segments (`restPartials`):
strip the current field's wrappers, require an object or interface type,
look up the segment, and return the found field at the last segment.  The
`[]` case is unreachable (the loop is only entered on a nonempty rest). -/
def getInAux (schema : GQLSchema) (path : String) :
    GQLField → List String → Except String GQLField
  | _, [] => .error ("Unable to find path " ++ path)
  | field, seg :: rest =>
    match resolveNamed schema (getFirstNonWrappingType field.type) with
    | none => .error ("Unable to find path " ++ path)
    | some td =>
      if ¬ (td.kind = .object) ∧ ¬ (td.kind = .interface) then
        .error ("Unable to find path " ++ path)
      else
        match lookupField td.fields seg with
        | none => .error ("Unable to find path " ++ path)
        | some f => if rest.isEmpty then .ok f else getInAux schema path f rest

/-- Embeds `getIn`: split the dotted path, look the first segment up in
the root node's field map, and descend with the loop above.  The `[]`
split case is unreachable (`split` never yields an empty array). -/
def getIn (schema : GQLSchema) (rootNode : NamedTypeDef) (path : String) :
    Except String GQLField :=
  match splitDot path with
  | [] => .error ("Unable to find path " ++ path)
  | first :: rest =>
    match lookupField rootNode.fields first with
    | none => .error ("Unable to find path " ++ path)
    | some f => if rest.isEmpty then .ok f else getInAux schema path f rest

/-- Literal descent along a segment list as the specification describes
the Field-Path Navigator: each segment must be present in the current
field map; before each further descent the current field's type is
stripped of wrappers and must be an object or interface type; the final
field is returned still wrapped. -/
def literalDescent (schema : GQLSchema) (fields : List GQLField) :
    List String → Option GQLField
  | [] => none
  | seg :: rest =>
    match lookupField fields seg with
    | none => none
    | some f =>
      if rest.isEmpty then some f
      else
        match resolveNamed schema (getFirstNonWrappingType f.type) with
        | none => none
        | some td =>
          if td.kind = .object ∨ td.kind = .interface then
            literalDescent schema td.fields rest
          else none

/-- The one-step descent `getIn` performs between segments: strip the
current field's wrappers, require an object/interface definition, then
continue the literal descent. -/
def descendInto (schema : GQLSchema) (f : GQLField) (rest : List String) :
    Option GQLField :=
  match resolveNamed schema (getFirstNonWrappingType f.type) with
  | none => none
  | some td =>
    if td.kind = .object ∨ td.kind = .interface then
      literalDescent schema td.fields rest
    else none

/-! ### Entity extraction (`parseObjectOrInterfaceType`, `parseInputObjectType`) -/

/-- A flat prepared field (`PreparedObjectField`): name, optional
description, rendered type text. -/
structure PreparedObjectField where
  name : String
  description : Option String := none
  type : String
deriving Repr, DecidableEq

/-- A `PreparedObject`: a named field group with its import list. -/
structure PreparedObject where
  name : String
  fields : List PreparedObjectField
  importTypes : List String
deriving Repr, DecidableEq

/-- The flat field list of an entity, with the entity's formatted name. -/
structure EntityFlatFields where
  name : String
  fields : List PreparedObjectField
deriving Repr, DecidableEq

/-- A namespace field of an entity: `args` is the prepared `Arguments`
object for object/interface fields and `null` for input-object fields. -/
structure EntityNamespaceField where
  name : String
  description : Option String
  args : Option PreparedObject
  type : String
deriving Repr, DecidableEq

/-- The namespace rendering of an entity (`nsp` models the source's
`namespace` property, a reserved word in Lean). -/
structure EntityNamespace where
  name : String
  description : Option String
  fields : List EntityNamespaceField
deriving Repr, DecidableEq

/-- An extracted `Entity`. -/
structure Entity where
  fields : EntityFlatFields
  nsp : EntityNamespace
  importTypes : List String
deriving Repr, DecidableEq

/-- The dedup-only push `if (!acc.includes(t)) acc.push(t)` used by the
entity extractor, `getImportTypes` and the operation assembler. -/
def addType (acc : List String) (t : String) : List String :=
  if t ∉ acc then acc ++ [t] else acc

/-- The argument reducer inside `parseObjectOrInterfaceType`: push a
prepared argument field and merge the argument type's imports. -/
def parseFieldArgument (argAcc : PreparedObject) (arg : GQLArg) :
    PreparedObject :=
  let r := getIOTypeDefinition arg.type [] true
  { argAcc with
    fields := argAcc.fields ++ [⟨arg.name, arg.description, r.definition⟩],
    importTypes := r.importTypes.foldl addType argAcc.importTypes }

/-- The field reducer inside `parseObjectOrInterfaceType`: push the flat
dotted-path field, build the `Arguments` record, merge the collected
lists of required types, push the namespace field with the resolved type. -/
def parseObjectOrInterfaceField (formattedName : String) (acc : Entity)
    (f : GQLField) : Entity :=
  let preparedArguments :=
    f.args.foldl parseFieldArgument ⟨"Arguments", [], []⟩
  let r := getIOTypeDefinition f.type [] true
  { acc with
    fields := ⟨acc.fields.name,
      acc.fields.fields ++
        [⟨f.name, f.description, formattedName ++ "." ++ f.name⟩]⟩,
    importTypes :=
      (r.importTypes ++ preparedArguments.importTypes).foldl addType
        acc.importTypes,
    nsp := ⟨acc.nsp.name, acc.nsp.description,
      acc.nsp.fields ++
        [⟨f.name, f.description, some preparedArguments, r.definition⟩]⟩ }

/-- Embeds `parseObjectOrInterfaceType`: one fold of the field reducer
over the field map.  `none` models the `toCamelCase` TypeError on a name
with an empty cleared form. -/
def parseObjectOrInterfaceType (type : NamedTypeDef) : Option Entity :=
  (toCamelCase type.name).map fun formattedName =>
    type.fields.foldl (parseObjectOrInterfaceField formattedName)
      ⟨⟨formattedName, []⟩, ⟨formattedName, type.description, []⟩, []⟩

/-- The field reducer inside `parseInputObjectType`: as for object types
but input-object fields have no argument lists (`args = null`). -/
def parseInputObjectField (formattedName : String) (acc : Entity)
    (f : GQLField) : Entity :=
  let r := getIOTypeDefinition f.type [] true
  { acc with
    fields := ⟨acc.fields.name,
      acc.fields.fields ++
        [⟨f.name, f.description, formattedName ++ "." ++ f.name⟩]⟩,
    importTypes := r.importTypes.foldl addType acc.importTypes,
    nsp := ⟨acc.nsp.name, acc.nsp.description,
      acc.nsp.fields ++ [⟨f.name, f.description, none, r.definition⟩]⟩ }

/-- Embeds `parseInputObjectType`. -/
def parseInputObjectType (type : NamedTypeDef) : Option Entity :=
  (toCamelCase type.name).map fun formattedName =>
    type.fields.foldl (parseInputObjectField formattedName)
      ⟨⟨formattedName, []⟩, ⟨formattedName, type.description, []⟩, []⟩

/-! ### Selection sets and the Selection Projector -/

mutual
/-- A selection node: a plain field, a fragment spread, or another
unhandled selection kind (inline fragment). -/
inductive SelectionNode where
  | field (node : FieldNode)
  | fragmentSpread (name : String)
  | inlineFragment
/-- A field node: name plus optional nested selection set. -/
inductive FieldNode where
  | mk (name : String) (selectionSet : Option SelectionSetNode)
/-- A selection set: its list of selections. -/
inductive SelectionSetNode where
  | mk (selections : List SelectionNode)
end

/-- `node.name.value`. -/
def FieldNode.name : FieldNode → String
  | .mk n _ => n

/-- `selectionSet.selections`. -/
def SelectionSetNode.selections : SelectionSetNode → List SelectionNode
  | .mk s => s

/-- Embeds `selectionSetToObjectFields`: a reduce that pushes a
`{name, type: nspName.name}` entry per plain field selection and skips
every other selection kind (the source's `// TODO: Fragments support`). -/
def selectionSetToObjectFields (selectionSet : SelectionSetNode)
    (nspName : String) : List PreparedObjectField :=
  selectionSet.selections.foldl (fun acc s =>
    match s with
    | .field node => acc ++ [⟨node.name, none, nspName ++ "." ++ node.name⟩]
    | _ => acc) []

/-- The `type` of an operation namespace field: a resolved definition
with imports at leaves, or at composites the synthetic named object (its
flat dotted-path fields plus the field's still-wrapped output type). -/
inductive OperationNamespaceFieldType where
  | leaf (d : DefinitionWithImportTypes)
  | composite (name : String) (fields : List PreparedObjectField)
      (outputType : GQLType)

/-- An operation namespace field (recursive). -/
inductive OperationNamespaceField where
  | mk (name : String) (type : OperationNamespaceFieldType)
      (fields : Option (List OperationNamespaceField))

mutual
/-- Embeds `getImportTypes`: dedup-collect the field's own leaf import
list (composites have no `type.importTypes`), then the lists of all
nested fields. -/
def getImportTypes (f : OperationNamespaceField) : List String :=
  match f with
  | .mk _ t fields? =>
    let types : List String :=
      match t with
      | .leaf d => d.importTypes.foldl addType []
      | .composite _ _ _ => []
    match fields? with
    | none => types
    | some fs => (getImportTypesList fs).foldl addType types
/-- `fields.flatMap(getImportTypes)`: plain concatenation of the
per-field lists. -/
def getImportTypesList : List OperationNamespaceField → List String
  | [] => []
  | f :: fs => getImportTypes f ++ getImportTypesList fs
end

/-- The generic runtime failure JavaScript raises when the code
dereferences `undefined`: an absent root node in `getIn`
(`rootNode.toConfig()`), or `toCamelCase` reading a character of an
empty cleared string. -/
def jsTypeError : String := "TypeError: cannot read property of undefined"

mutual
/-- Embeds `fieldNodeToNamespaceField`: extend the dotted path, resolve
the field through `getIn` (dereferencing the possibly-absent root node),
then build a leaf entry via `getIOTypeDefinition`, or a composite entry
with the synthetic flat fields and the recursively projected children. -/
def fieldNodeToNamespaceField (schema : GQLSchema) (node : FieldNode)
    (rootNode : Option NamedTypeDef) (prevPath : String) :
    Except String OperationNamespaceField :=
  match node with
  | .mk nodeName sel =>
    let path :=
      if prevPath.length > 0 then prevPath ++ "." ++ nodeName else nodeName
    match rootNode with
    | none => Except.error jsTypeError
    | some rn =>
    match getIn schema rn path with
    | .error e => .error e
    | .ok gf =>
      match sel with
      | some ss =>
        match selectionSetToNamespaceFields schema ss rootNode path with
        | .error e => .error e
        | .ok children =>
          .ok (.mk nodeName
            (.composite nodeName (selectionSetToObjectFields ss nodeName)
              gf.type)
            (some children))
      | none =>
        .ok (.mk nodeName (.leaf (getIOTypeDefinition gf.type [] true)) none)

/-- Embeds `selectionSetToNamespaceFields`. -/
def selectionSetToNamespaceFields (schema : GQLSchema)
    (ss : SelectionSetNode) (rootNode : Option NamedTypeDef) (path : String) :
    Except String (List OperationNamespaceField) :=
  match ss with
  | .mk sels => selectionsToNamespaceFields schema sels rootNode path

/-- The reduce inside `selectionSetToNamespaceFields`: project each plain
field selection in order, skip every other selection kind (the source's
`// TODO: Fragments support`). -/
def selectionsToNamespaceFields (schema : GQLSchema)
    (sels : List SelectionNode) (rootNode : Option NamedTypeDef)
    (path : String) : Except String (List OperationNamespaceField) :=
  match sels with
  | [] => .ok []
  | s :: rest =>
    match s with
    | .field node =>
      match fieldNodeToNamespaceField schema node rootNode path with
      | .error e => .error e
      | .ok f =>
        match selectionsToNamespaceFields schema rest rootNode path with
        | .error e => .error e
        | .ok fs => .ok (f :: fs)
    | _ => selectionsToNamespaceFields schema rest rootNode path
end

/-- Embeds `OperationRootNamespace`. -/
structure OperationRootNamespace where
  name : String
  fields : List OperationNamespaceField
  args : PreparedObject
  importTypes : List String

/-- Embeds `selectionSetToRootNamespace`: project the namespace fields,
then collect `nspFields.flatMap(getImportTypes)` — a plain concatenation
of the per-field import lists, with no cross-field deduplication. -/
def selectionSetToRootNamespace (schema : GQLSchema)
    (selectionSet : SelectionSetNode) (compiledName : String)
    (args : PreparedObject) (rootNode : Option NamedTypeDef) :
    Except String OperationRootNamespace :=
  match selectionSetToNamespaceFields schema selectionSet rootNode "" with
  | .error e => .error e
  | .ok nspFields =>
    .ok ⟨compiledName, nspFields, args, getImportTypesList nspFields⟩

/-! ### Operation assembly -/

/-- Embeds `VariableDefinitionNode`: variable name and declared AST type. -/
structure VariableDefinitionNode where
  name : String
  type : TypeNode
deriving Repr, DecidableEq

/-- Embeds `parseOperationVariableDefinitions`. -/
def parseOperationVariableDefinitions
    (nodes : List VariableDefinitionNode) : PreparedObject :=
  nodes.foldl (fun acc n =>
    let r := getTypeNodeDefinition n.type [] true
    { acc with
      fields := acc.fields ++ [⟨n.name, none, r.definition⟩],
      importTypes := r.importTypes.foldl addType acc.importTypes })
    ⟨"Arguments", [], []⟩

/-- `OperationTypeNode`. -/
inductive OperationTypeNode where
  | query
  | mutation
  | subscription
deriving Repr, DecidableEq

/-- The raw string of an operation kind as it appears in the AST. -/
def operationTypeString : OperationTypeNode → String
  | .query => "query"
  | .mutation => "mutation"
  | .subscription => "subscription"

/-- Embeds `getOperationRootNode`: query and mutation map to their
configured roots, everything else falls through to the subscription
root; an unconfigured root is the absent value (`undefined`), returned
without any check. -/
def getOperationRootNode (schema : GQLSchema)
    (operation : OperationTypeNode) : Option NamedTypeDef :=
  match operation with
  | .query => schema.queryType
  | .mutation => schema.mutationType
  | .subscription => schema.subscriptionType

/-- Embeds `OperationDefinitionNode`: operation name, kind, selection
set, variable definitions, and source byte range. -/
structure OperationDefinitionNode where
  name : String
  operation : OperationTypeNode
  selectionSet : SelectionSetNode
  variableDefinitions : List VariableDefinitionNode
  locStart : Nat
  locEnd : Nat

/-- `operationsString.slice(loc.start, loc.end)`. -/
def sliceString (s : String) (a b : Nat) : String :=
  String.mk ((s.toList.drop a).take (b - a))

/-- Embeds the `Operation` record (`nsp` models `namespace`). -/
structure Operation where
  name : String
  signature : String
  selection : PreparedObject
  nsp : OperationRootNamespace
  importTypes : List String

/-- Embeds `parseOperationDefinitionNode`: compiled names (crashing when
`toCamelCase` fails on the operation name), root-node lookup with no
missing-root check, flat selection, variable `Arguments`, root
namespace, and the operation-level deduplicated import list. -/
def parseOperationDefinitionNode (node : OperationDefinitionNode)
    (schema : GQLSchema) (operationsString : String) :
    Except String Operation :=
  match getCompiledOperationName node.name (operationTypeString node.operation),
        getCompiledOperationNamespaceName node.name
          (operationTypeString node.operation) with
  | some operationName, some operationNamespaceName =>
    let rootNode := getOperationRootNode schema node.operation
    let selection : PreparedObject :=
      ⟨operationName,
       selectionSetToObjectFields node.selectionSet operationNamespaceName, []⟩
    let args := parseOperationVariableDefinitions node.variableDefinitions
    match selectionSetToRootNamespace schema node.selectionSet
        operationNamespaceName args rootNode with
    | .error e => .error e
    | .ok nsp =>
      let importTypes :=
        nsp.importTypes.foldl addType (args.importTypes.foldl addType [])
      .ok ⟨operationName,
           sliceString operationsString node.locStart node.locEnd,
           selection, nsp, importTypes⟩
  | _, _ => .error jsTypeError

/-- Whether a selection node is a plain field (the only kind the
projector handles). -/
def isFieldSelection : SelectionNode → Bool
  | .field _ => true
  | _ => false

/-- The stream of type names an object/interface field contributes to its
entity's import list: the field's own resolved imports followed by its
arguments' imports. -/
def entityFieldImportStream (f : GQLField) : List String :=
  (getIOTypeDefinition f.type [] true).importTypes ++
    (f.args.foldl parseFieldArgument ⟨"Arguments", [], []⟩).importTypes

/-- The stream an input-object field contributes: just the resolved
list of its required types. -/
def inputFieldImportStream (f : GQLField) : List String :=
  (getIOTypeDefinition f.type [] true).importTypes

/-- Whether a modelled computation completed without a thrown error. -/
def isOkExcept {ε α : Type} : Except ε α → Bool
  | .ok _ => true
  | .error _ => false

/-! ### Concrete fixtures from the example schema -/

/-- The `PostAuthor` object type of the example schema. -/
def postAuthorTD : NamedTypeDef :=
  ⟨"PostAuthor", .object, some "Author of post",
   [⟨"name", some "User full name", .nonNull (.named "String"), []⟩,
    ⟨"registeredAt", some "Date when user was registered",
      .nonNull (.named "DateTime"), []⟩,
    ⟨"bannedAt", some "Date when user was banned", .named "DateTime", []⟩]⟩

/-- A root object type with two fields of the same custom scalar type. -/
def c3RootTD : NamedTypeDef :=
  ⟨"Query", .object, none,
   [⟨"updatedAt", none, .named "DateTime", []⟩,
    ⟨"deletedAt", none, .named "DateTime", []⟩]⟩

/-- A schema exposing `c3RootTD` as query root. -/
def c3Schema : GQLSchema := ⟨[c3RootTD], some c3RootTD, none, none⟩

/-- A selection of the two `DateTime`-typed sibling fields. -/
def c3SelectionSet : SelectionSetNode :=
  .mk [.field (.mk "updatedAt" none), .field (.mk "deletedAt" none)]

/-- A schema with no mutation root configured. -/
def c6Schema : GQLSchema := ⟨[], none, none, none⟩

/-- A mutation whose selection set holds only a fragment spread. -/
def c6Node : OperationDefinitionNode :=
  ⟨"doThing", .mutation, .mk [.fragmentSpread "postFields"], [], 0, 0⟩

/-- A one-field object type (`Post { id: ID! }`). -/
def postTD : NamedTypeDef :=
  ⟨"Post", .object, none, [⟨"id", none, .nonNull (.named "ID"), []⟩]⟩

/-- The entity `parseObjectOrInterfaceType` extracts from `postTD`. -/
def postEntity : Entity :=
  ⟨⟨"Post", [⟨"id", none, "Post.id"⟩]⟩,
   ⟨"Post", none, [⟨"id", none, some ⟨"Arguments", [], []⟩, "any"⟩]⟩, []⟩

/-- The `PostsInput` input type of the example schema. -/
def postsInputTD : NamedTypeDef :=
  ⟨"PostsInput", .inputObject, some "Input to get posts",
   [⟨"limit", none, .nonNull (.named "Int"), []⟩,
    ⟨"offset", none, .nonNull (.named "Int"), []⟩]⟩

/-- The entity `parseInputObjectType` extracts from `postsInputTD`. -/
def postsInputEntity : Entity :=
  ⟨⟨"PostsInput",
    [⟨"limit", none, "PostsInput.limit"⟩,
     ⟨"offset", none, "PostsInput.offset"⟩]⟩,
   ⟨"PostsInput", some "Input to get posts",
    [⟨"limit", none, none, "number"⟩, ⟨"offset", none, none, "number"⟩]⟩,
   []⟩

/-- The root namespace `selectionSetToRootNamespace` builds from the
`c3SelectionSet` fixture: note the duplicated `DateTime`. -/
def c3Namespace : OperationRootNamespace :=
  ⟨"PostsQuery",
   [.mk "updatedAt" (.leaf ⟨"DateTime | null", ["DateTime"]⟩) none,
    .mk "deletedAt" (.leaf ⟨"DateTime | null", ["DateTime"]⟩) none],
   ⟨"Arguments", [], []⟩,
   ["DateTime", "DateTime"]⟩

/-! ### Helper lemmas shared across claims -/

/-- Left-to-right list of named-leaf occurrences of an AST type node. -/
def namedTypeNamesOf : TypeNode → List String
  | .namedType n => [n]
  | .listType t => namedTypeNamesOf t
  | .nonNullType t => namedTypeNamesOf t

/-- Left-to-right list of named-leaf occurrences of a schema-object type. -/
def namedNamesOfGQL : GQLType → List String
  | .named n => [n]
  | .list t => namedNamesOfGQL t
  | .nonNull t => namedNamesOfGQL t

lemma pushName_subset {acc : List String} {t x : String}
    (h : x ∈ pushName acc t) : x ∈ acc ∨ x = t := by
  unfold pushName at h
  split at h
  · rcases List.mem_append.1 h with h' | h'
    · exact Or.inl h'
    · exact Or.inr (List.mem_singleton.1 h')
  · exact Or.inl h

lemma mem_pushName_left {acc : List String} {t x : String}
    (h : x ∈ acc) : x ∈ pushName acc t := by
  unfold pushName
  split
  · exact List.mem_append.2 (Or.inl h)
  · exact h

lemma foldl_pushName_noop {xs acc : List String}
    (h : ∀ x ∈ xs, x ∈ acc) : xs.foldl pushName acc = acc := by
  induction xs with
  | nil => rfl
  | cons y ys ih =>
    simp only [List.foldl_cons]
    have hy : y ∈ acc := h y (by simp)
    have hstep : pushName acc y = acc := by
      unfold pushName
      split
      · next hc => exact absurd hy hc.2
      · rfl
    rw [hstep]
    exact ih (fun x hx => h x (by simp [hx]))

lemma mem_foldl_pushName {xs : List String} {acc : List String} {x : String}
    (h : x ∈ xs.foldl pushName acc) : x ∈ acc ∨ x ∈ xs := by
  induction xs generalizing acc with
  | nil => exact Or.inl h
  | cons y ys ih =>
    simp only [List.foldl_cons] at h
    rcases ih h with h' | h'
    · rcases pushName_subset h' with h'' | h''
      · exact Or.inl h''
      · exact Or.inr (by simp [h''])
    · exact Or.inr (by simp [h'])

lemma mem_foldl_pushName_scalarFree {xs : List String} {acc : List String} {x : String}
    (h : x ∈ xs.foldl pushName acc) : x ∈ acc ∨ isGQLScalarType x = false := by
  induction xs generalizing acc with
  | nil => exact Or.inl h
  | cons y ys ih =>
    simp only [List.foldl_cons] at h
    rcases ih h with h' | h'
    · unfold pushName at h'
      split at h'
      · next hc =>
        rcases List.mem_append.1 h' with h'' | h''
        · exact Or.inl h''
        · right
          rw [List.mem_singleton.1 h'']
          exact Bool.not_eq_true _ ▸ (by simpa using hc.1)
      · exact Or.inl h'
    · exact Or.inr h'

lemma foldl_pushName_nodup {xs : List String} {acc : List String}
    (h : acc.Nodup) : (xs.foldl pushName acc).Nodup := by
  induction xs generalizing acc with
  | nil => exact h
  | cons y ys ih =>
    simp only [List.foldl_cons]
    apply ih
    unfold pushName
    split
    · next hc =>
        rw [List.nodup_append]
        refine ⟨h, List.nodup_singleton _, ?_⟩
        intro a ha hb
        rw [List.mem_singleton.1 hb] at ha
        exact hc.2 ha
    · exact h

/-- The import accumulator of `getTypeNodeDefinition` is exactly a
first-seen fold of the leaf-name stream over the starting accumulator. -/
lemma getTypeNodeDefinition_importTypes (node : TypeNode) :
    ∀ (acc : List String) (b : Bool),
      (getTypeNodeDefinition node acc b).importTypes =
        (namedTypeNamesOf node).foldl pushName acc := by
  induction node with
  | namedType n =>
    intro acc b
    simp [getTypeNodeDefinition, namedTypeNamesOf, pushName]
  | nonNullType t ih =>
    intro acc b
    simp only [getTypeNodeDefinition, namedTypeNamesOf]
    exact ih acc false
  | listType t ih =>
    intro acc b
    simp only [getTypeNodeDefinition, namedTypeNamesOf]
    have hinner := ih acc true
    have hnoop :
        ((getTypeNodeDefinition t acc true).importTypes.foldl pushName
          (getTypeNodeDefinition t acc true).importTypes) =
        (getTypeNodeDefinition t acc true).importTypes :=
      foldl_pushName_noop (fun x hx => hx)
    simpa [pushName] using hnoop.trans hinner

/-- Same characterisation for `getIOTypeDefinition`. -/
lemma getIOTypeDefinition_importTypes (type : GQLType) :
    ∀ (acc : List String) (b : Bool),
      (getIOTypeDefinition type acc b).importTypes =
        (namedNamesOfGQL type).foldl pushName acc := by
  induction type with
  | named n =>
    intro acc b
    simp [getIOTypeDefinition, namedNamesOfGQL, pushName]
  | nonNull t ih =>
    intro acc b
    simp only [getIOTypeDefinition, namedNamesOfGQL]
    exact ih acc false
  | list t ih =>
    intro acc b
    simp only [getIOTypeDefinition, namedNamesOfGQL]
    have hinner := ih acc true
    have hnoop :
        ((getIOTypeDefinition t acc true).importTypes.foldl pushName
          (getIOTypeDefinition t acc true).importTypes) =
        (getIOTypeDefinition t acc true).importTypes :=
      foldl_pushName_noop (fun x hx => hx)
    simpa [pushName] using hnoop.trans hinner

/-- The two resolver entry points agree on structurally corresponding
inputs, for every accumulator and nullability context. -/
lemma getIO_eq_getTypeNode (node : TypeNode) :
    ∀ (acc : List String) (b : Bool),
      getIOTypeDefinition (gqlTypeOfTypeNode node) acc b =
        getTypeNodeDefinition node acc b := by
  induction node with
  | namedType n =>
    intro acc b
    simp [gqlTypeOfTypeNode, getIOTypeDefinition, getTypeNodeDefinition]
  | nonNullType t ih =>
    intro acc b
    simp only [gqlTypeOfTypeNode, getIOTypeDefinition, getTypeNodeDefinition]
    exact ih acc false
  | listType t ih =>
    intro acc b
    simp only [gqlTypeOfTypeNode, getIOTypeDefinition, getTypeNodeDefinition]
    rw [ih acc true]

/-! Lemmas about `getIn` -/

lemma getInAux_spec (schema : GQLSchema) (path : String) :
    ∀ (rest : List String) (f : GQLField), rest ≠ [] →
      getInAux schema path f rest =
        (match descendInto schema f rest with
         | some r => Except.ok r
         | none => Except.error ("Unable to find path " ++ path)) := by
  intro rest
  induction rest with
  | nil => intro f h; exact absurd rfl h
  | cons seg rest2 ih =>
    intro f _
    simp only [getInAux, descendInto]
    cases hres : resolveNamed schema (getFirstNonWrappingType f.type) with
    | none => rfl
    | some td =>
      by_cases hk : td.kind = .object ∨ td.kind = .interface
      · have hnot : ¬ (¬ (td.kind = .object) ∧ ¬ (td.kind = .interface)) := by
          tauto
        simp only [if_neg hnot, if_pos hk, literalDescent]
        cases hlk : lookupField td.fields seg with
        | none => rfl
        | some f2 =>
          by_cases hemp : rest2.isEmpty
          · simp [hemp]
          · have hne2 : rest2 ≠ [] := by
              cases rest2 with
              | nil => simp at hemp
              | cons a l => exact List.cons_ne_nil a l
            simp only [if_neg hemp]
            rw [ih f2 hne2]
            simp only [descendInto]
      · have hnot : ¬ (td.kind = .object) ∧ ¬ (td.kind = .interface) := by
          tauto
        simp [hnot, hk]

/-! Lemmas about `clearChars` -/

lemma clearChars_ne_nil_of_any_alnum :
    ∀ l : List Char, l.any (·.isAlphanum) = true → clearChars l ≠ [] := by
  intro l
  induction l with
  | nil => intro h; simp at h
  | cons c tail ih =>
    intro h
    cases tail with
    | nil =>
      have hc : c.isAlphanum = true := by simpa using h
      simp [clearChars, hc]
    | cons d rest2 =>
      by_cases hc : c.isAlphanum = true
      · simp [clearChars, hc]
      · have hd : (d :: rest2).any (·.isAlphanum) = true := by
          simp only [List.any_cons, Bool.or_eq_true] at h
          rcases h with h | h
          · exact absurd h hc
          · simpa using h
        by_cases hnl : d = '\n'
        · simpa [clearChars, hc, hnl] using ih hd
        · simp [clearChars, hc, hnl]

lemma clearChars_of_all_alnum :
    ∀ l : List Char, l.all (·.isAlphanum) = true → clearChars l = l := by
  intro l
  induction l with
  | nil => intro _; rfl
  | cons c tail ih =>
    intro h
    simp only [List.all_cons, Bool.and_eq_true] at h
    cases tail with
    | nil => simp [clearChars, h.1]
    | cons d rest2 =>
      have := ih (by simpa using h.2)
      simp [clearChars, h.1, this]

/-! Lemmas about `addType` folds -/

lemma addType_subset {acc : List String} {t x : String}
    (h : x ∈ addType acc t) : x ∈ acc ∨ x = t := by
  unfold addType at h
  split at h
  · rcases List.mem_append.1 h with h' | h'
    · exact Or.inl h'
    · exact Or.inr (List.mem_singleton.1 h')
  · exact Or.inl h

lemma mem_foldl_addType {xs : List String} {acc : List String} {x : String}
    (h : x ∈ xs.foldl addType acc) : x ∈ acc ∨ x ∈ xs := by
  induction xs generalizing acc with
  | nil => exact Or.inl h
  | cons y ys ih =>
    simp only [List.foldl_cons] at h
    rcases ih h with h' | h'
    · rcases addType_subset h' with h'' | h''
      · exact Or.inl h''
      · exact Or.inr (by simp [h''])
    · exact Or.inr (by simp [h'])

lemma foldl_addType_nodup {xs : List String} {acc : List String}
    (h : acc.Nodup) : (xs.foldl addType acc).Nodup := by
  induction xs generalizing acc with
  | nil => exact h
  | cons y ys ih =>
    simp only [List.foldl_cons]
    apply ih
    unfold addType
    split
    · next hc =>
      rw [List.nodup_append]
      refine ⟨h, List.nodup_singleton _, ?_⟩
      intro a ha hb
      rw [List.mem_singleton.1 hb] at ha
      exact hc ha
    · exact h

/-! Scalar-freedom of the resolvers' fresh-accumulator outputs -/

lemma getTypeNode_fresh_scalarFree (node : TypeNode) (b : Bool) :
    ∀ x ∈ (getTypeNodeDefinition node [] b).importTypes,
      isGQLScalarType x = false := by
  intro x hx
  rw [getTypeNodeDefinition_importTypes] at hx
  rcases mem_foldl_pushName_scalarFree hx with h | h
  · simp at h
  · exact h

lemma getIO_fresh_scalarFree (t : GQLType) (b : Bool) :
    ∀ x ∈ (getIOTypeDefinition t [] b).importTypes,
      isGQLScalarType x = false := by
  intro x hx
  rw [getIOTypeDefinition_importTypes] at hx
  rcases mem_foldl_pushName_scalarFree hx with h | h
  · simp at h
  · exact h

/-! Fold characterisations of the entity extractors -/

lemma argsFold_importTypes :
    ∀ (args : List GQLArg) (argAcc : PreparedObject),
      (args.foldl parseFieldArgument argAcc).importTypes =
        (args.map (fun a => (getIOTypeDefinition a.type [] true).importTypes)).flatten.foldl
          addType argAcc.importTypes := by
  intro args
  induction args with
  | nil => intro argAcc; rfl
  | cons a rest ih =>
    intro argAcc
    simp only [List.foldl_cons, List.map_cons, List.flatten_cons,
      List.foldl_append]
    rw [ih]
    rfl

lemma entityFieldImportStream_scalarFree (f : GQLField) :
    ∀ x ∈ entityFieldImportStream f, isGQLScalarType x = false := by
  intro x hx
  unfold entityFieldImportStream at hx
  rcases List.mem_append.1 hx with h | h
  · exact getIO_fresh_scalarFree f.type true x h
  · rw [argsFold_importTypes] at h
    rcases mem_foldl_addType h with h' | h'
    · simp at h'
    · rcases List.mem_flatten.1 h' with ⟨l, hl, hxl⟩
      rcases List.mem_map.1 hl with ⟨a, _, rfl⟩
      exact getIO_fresh_scalarFree a.type true x hxl

lemma objectFold_spec (fn : String) :
    ∀ (fields : List GQLField) (acc : Entity),
      (fields.foldl (parseObjectOrInterfaceField fn) acc).fields.fields =
          acc.fields.fields ++ fields.map
            (fun f => (⟨f.name, f.description, fn ++ "." ++ f.name⟩ :
              PreparedObjectField)) ∧
      (fields.foldl (parseObjectOrInterfaceField fn) acc).nsp.fields.map
          (fun nf => nf.name) =
        acc.nsp.fields.map (fun nf => nf.name) ++
          fields.map (fun f => f.name) ∧
      (fields.foldl (parseObjectOrInterfaceField fn) acc).fields.name =
        acc.fields.name ∧
      (fields.foldl (parseObjectOrInterfaceField fn) acc).nsp.name =
        acc.nsp.name ∧
      (fields.foldl (parseObjectOrInterfaceField fn) acc).importTypes =
        (fields.map entityFieldImportStream).flatten.foldl addType
          acc.importTypes := by
  intro fields
  induction fields with
  | nil => intro acc; simp
  | cons f fs ih =>
    intro acc
    have h := ih (parseObjectOrInterfaceField fn acc f)
    simp only [List.foldl_cons, List.map_cons, List.flatten_cons,
      List.foldl_append]
    refine ⟨?_, ?_, ?_, ?_, ?_⟩
    · rw [h.1]
      simp [parseObjectOrInterfaceField]
    · rw [h.2.1]
      simp [parseObjectOrInterfaceField]
    · rw [h.2.2.1]
      rfl
    · rw [h.2.2.2.1]
      rfl
    · rw [h.2.2.2.2]
      rfl

lemma inputFold_spec (fn : String) :
    ∀ (fields : List GQLField) (acc : Entity),
      (fields.foldl (parseInputObjectField fn) acc).fields.fields =
          acc.fields.fields ++ fields.map
            (fun f => (⟨f.name, f.description, fn ++ "." ++ f.name⟩ :
              PreparedObjectField)) ∧
      (fields.foldl (parseInputObjectField fn) acc).nsp.fields.map
          (fun nf => nf.name) =
        acc.nsp.fields.map (fun nf => nf.name) ++
          fields.map (fun f => f.name) ∧
      (fields.foldl (parseInputObjectField fn) acc).fields.name =
        acc.fields.name ∧
      (fields.foldl (parseInputObjectField fn) acc).nsp.name =
        acc.nsp.name ∧
      (fields.foldl (parseInputObjectField fn) acc).importTypes =
        (fields.map inputFieldImportStream).flatten.foldl addType
          acc.importTypes := by
  intro fields
  induction fields with
  | nil => intro acc; simp
  | cons f fs ih =>
    intro acc
    have h := ih (parseInputObjectField fn acc f)
    simp only [List.foldl_cons, List.map_cons, List.flatten_cons,
      List.foldl_append]
    refine ⟨?_, ?_, ?_, ?_, ?_⟩
    · rw [h.1]
      simp [parseInputObjectField]
    · rw [h.2.1]
      simp [parseInputObjectField]
    · rw [h.2.2.1]
      rfl
    · rw [h.2.2.2.1]
      rfl
    · rw [h.2.2.2.2]
      rfl

/-! Lemmas about the Selection Projector -/

lemma getImportTypes_nodup (f : OperationNamespaceField) :
    (getImportTypes f).Nodup := by
  cases f with
  | mk n t fields? =>
    cases fields? with
    | none =>
      cases t with
      | leaf d =>
        have h : ((d.importTypes).foldl addType []).Nodup :=
          foldl_addType_nodup List.nodup_nil
        simpa [getImportTypes] using h
      | composite a b c => simp [getImportTypes]
    | some fs =>
      cases t with
      | leaf d =>
        simp only [getImportTypes]
        exact foldl_addType_nodup (foldl_addType_nodup List.nodup_nil)
      | composite a b c =>
        simp only [getImportTypes]
        exact foldl_addType_nodup List.nodup_nil

lemma proj_scalarFree (schema : GQLSchema) :
    ∀ (n : Nat),
      (∀ (node : FieldNode), sizeOf node ≤ n →
        ∀ (root : Option NamedTypeDef) (path : String)
          (r : OperationNamespaceField),
          fieldNodeToNamespaceField schema node root path = .ok r →
          ∀ x ∈ getImportTypes r, isGQLScalarType x = false) ∧
      (∀ (sels : List SelectionNode), sizeOf sels ≤ n →
        ∀ (root : Option NamedTypeDef) (path : String)
          (rs : List OperationNamespaceField),
          selectionsToNamespaceFields schema sels root path = .ok rs →
          ∀ x ∈ getImportTypesList rs, isGQLScalarType x = false) := by
  intro n
  induction n using Nat.strong_induction_on with
  | _ n ih =>
    constructor
    · intro node hsz root path r hok x hx
      obtain ⟨nodeName, sel⟩ := node
      cases root with
      | none => simp [fieldNodeToNamespaceField] at hok
      | some rn =>
        rw [fieldNodeToNamespaceField] at hok
        split at hok
        · simp at hok
        · next gf hgi =>
          cases sel with
          | none =>
            simp only [Except.ok.injEq] at hok
            subst hok
            simp only [getImportTypes] at hx
            rcases mem_foldl_addType hx with h | h
            · simp at h
            · exact getIO_fresh_scalarFree gf.type true x h
          | some ss =>
            obtain ⟨sels⟩ := ss
            simp only [selectionSetToNamespaceFields] at hok
            split at hok
            · simp at hok
            · next children hch =>
              simp only [Except.ok.injEq] at hok
              subst hok
              simp only [getImportTypes] at hx
              rcases mem_foldl_addType hx with h | h
              · simp at h
              · have hlt : sizeOf sels < n := by
                  have hs : sizeOf sels <
                      sizeOf (FieldNode.mk nodeName
                        (some (SelectionSetNode.mk sels))) := by
                    simp
                    try omega
                  omega
                exact (ih (sizeOf sels) hlt).2 sels le_rfl (some rn) _ children
                  hch x h
    · intro sels hsz root path rs hok x hx
      cases sels with
      | nil =>
        simp only [selectionsToNamespaceFields, Except.ok.injEq] at hok
        subst hok
        simp [getImportTypesList] at hx
      | cons s rest =>
        cases s with
        | field nodeInner =>
          simp only [selectionsToNamespaceFields] at hok
          split at hok
          · simp at hok
          · next f hf =>
            split at hok
            · simp at hok
            · next fs hr =>
              simp only [Except.ok.injEq] at hok
              subst hok
              simp only [getImportTypesList] at hx
              rcases List.mem_append.1 hx with h | h
              · have hlt : sizeOf nodeInner < n := by
                  have hs : sizeOf nodeInner <
                      sizeOf (SelectionNode.field nodeInner :: rest) := by
                    simp
                    try omega
                  omega
                exact (ih (sizeOf nodeInner) hlt).1 nodeInner le_rfl root
                  path f hf x h
              · have hlt : sizeOf rest < n := by
                  have hs : sizeOf rest <
                      sizeOf (SelectionNode.field nodeInner :: rest) := by
                    simp
                    try omega
                  omega
                exact (ih (sizeOf rest) hlt).2 rest le_rfl root path fs hr x h
        | fragmentSpread nm =>
          simp only [selectionsToNamespaceFields] at hok
          have hlt : sizeOf rest < n := by
            have hs : sizeOf rest <
                sizeOf (SelectionNode.fragmentSpread nm :: rest) := by
              simp
              try omega
            omega
          exact (ih (sizeOf rest) hlt).2 rest le_rfl root path rs hok x hx
        | inlineFragment =>
          simp only [selectionsToNamespaceFields] at hok
          have hlt : sizeOf rest < n := by
            have hs : sizeOf rest <
                sizeOf (SelectionNode.inlineFragment :: rest) := by
              simp
              try omega
            omega
          exact (ih (sizeOf rest) hlt).2 rest le_rfl root path rs hok x hx

/-- Scalar-freedom of a projected namespace-field list. -/
lemma selectionsToNamespaceFields_scalarFree (schema : GQLSchema)
    (sels : List SelectionNode) (root : Option NamedTypeDef) (path : String)
    (rs : List OperationNamespaceField)
    (h : selectionsToNamespaceFields schema sels root path = .ok rs) :
    ∀ x ∈ getImportTypesList rs, isGQLScalarType x = false :=
  (proj_scalarFree schema (sizeOf sels)).2 sels le_rfl root path rs h

/-! Lemmas for the missing-root behaviour of the projector -/

lemma selectionsToNamespaceFields_no_field (schema : GQLSchema) :
    ∀ (sels : List SelectionNode) (path : String),
      sels.any isFieldSelection = false →
      selectionsToNamespaceFields schema sels none path = .ok [] := by
  intro sels
  induction sels with
  | nil => intro path _; rfl
  | cons s rest ih =>
    intro path h
    cases s with
    | field node => simp [isFieldSelection] at h
    | fragmentSpread nm =>
      simp only [selectionsToNamespaceFields]
      exact ih path (by simpa [isFieldSelection] using h)
    | inlineFragment =>
      simp only [selectionsToNamespaceFields]
      exact ih path (by simpa [isFieldSelection] using h)

lemma fieldNode_missing_root (schema : GQLSchema) (node : FieldNode)
    (path : String) :
    fieldNodeToNamespaceField schema node none path = .error jsTypeError := by
  obtain ⟨nodeName, sel⟩ := node
  simp [fieldNodeToNamespaceField]

lemma selectionsToNamespaceFields_field_missing_root (schema : GQLSchema) :
    ∀ (sels : List SelectionNode) (path : String),
      sels.any isFieldSelection = true →
      selectionsToNamespaceFields schema sels none path =
        .error jsTypeError := by
  intro sels
  induction sels with
  | nil => intro path h; simp at h
  | cons s rest ih =>
    intro path h
    cases s with
    | field node =>
      simp only [selectionsToNamespaceFields]
      rw [fieldNode_missing_root schema node path]
    | fragmentSpread nm =>
      simp only [selectionsToNamespaceFields]
      exact ih path (by simpa [isFieldSelection] using h)
    | inlineFragment =>
      simp only [selectionsToNamespaceFields]
      exact ih path (by simpa [isFieldSelection] using h)

/-- `toCamelCase` always succeeds on the three operation-kind strings. -/
lemma toCamelCase_operationTypeString (k : OperationTypeNode) :
    ∃ s, toCamelCase (operationTypeString k) = some s := by
  cases k with
  | query => exact ⟨"Query", by decide⟩
  | mutation => exact ⟨"Mutation", by decide⟩
  | subscription => exact ⟨"Subscription", by decide⟩

end GqlGen

open GqlGen

/-- C1: evaluating the type-reference resolver at the failing input
`[String]` (a List over Named `String`, no NonNull wrappers) shows the
code renders `"string | null[] | null"` — the nullable suffix is string-
appended with no parentheses around the element union — not the
`"(string | null)[] | null"` the claim requires. -/
theorem c1_list_of_nullable_string_rendering :
    getTypeNodeDefinition (.listType (.namedType "String")) [] true =
      ⟨"string | null[] | null", []⟩ ∧
    (getTypeNodeDefinition (.listType (.namedType "String")) [] true).definition ≠
      "(string | null)[] | null" := by
  constructor <;> decide

/-- C2: the AST entry point (`getTypeNodeDefinition`) and the
schema-object entry point (`getIOTypeDefinition`) produce the identical
rendered definition and the identical import-type list on structurally
corresponding type references with fresh accumulators. -/
theorem c2_ast_and_schema_entry_points_agree (node : TypeNode) :
    getIOTypeDefinition (gqlTypeOfTypeNode node) [] true =
      getTypeNodeDefinition node [] true :=
  getIO_eq_getTypeNode node [] true

/-- C4: `getIn` on a root type and a dotted path is exactly literal
descent: it returns the leaf field (with its original wrapper layers
untouched) precisely when every prefix of the path can be found by
literal descent — each segment present in the current field map and each
intermediate field's wrapper-stripped type an object or interface type —
and otherwise fails with an error naming the failing path. -/
theorem c4_getIn_is_literal_descent (schema : GQLSchema)
    (rootNode : NamedTypeDef) (path : String) :
    getIn schema rootNode path =
      (match literalDescent schema rootNode.fields (splitDot path) with
       | some f => Except.ok f
       | none => Except.error ("Unable to find path " ++ path)) := by
  simp only [getIn]
  cases hsp : splitDot path with
  | nil => simp [literalDescent]
  | cons first rest =>
    simp only [literalDescent]
    cases hlk : lookupField rootNode.fields first with
    | none => rfl
    | some f =>
      by_cases hemp : rest.isEmpty
      · simp [hemp]
      · have hne : rest ≠ [] := by
          cases rest with
          | nil => simp at hemp
          | cons a l => exact List.cons_ne_nil a l
        simp only [if_neg hemp]
        rw [getInAux_spec schema path rest f hne]
        simp only [descendInto]

/-- C8: the `getSorter` comparator, in category-weight mode, compares the
fixed weights scalar < enum < interface < input-object < union < object;
a type lacking a declaration AST node sorts before (value `-1`) every
type that has one (and after, value `1`, in the opposite order); in
`as-is` mode two node-bearing types are ordered by source start
position. -/
theorem c8_sorter_category_weights_and_position :
    (∀ (a b : GraphQLNamedTypeMeta) (na nb : AstNodeInfo),
        a.astNode = some na → b.astNode = some nb →
        getSorter .defaultMode a b = weights na.kind - weights nb.kind ∧
        (getSorter .defaultMode a b < 0 ↔ weights na.kind < weights nb.kind)) ∧
    (weights .scalarTypeDefinition < weights .enumTypeDefinition ∧
     weights .enumTypeDefinition < weights .interfaceTypeDefinition ∧
     weights .interfaceTypeDefinition < weights .inputObjectTypeDefinition ∧
     weights .inputObjectTypeDefinition < weights .unionTypeDefinition ∧
     weights .unionTypeDefinition < weights .objectTypeDefinition) ∧
    (∀ (d : DisplayType) (a b : GraphQLNamedTypeMeta) (nb : AstNodeInfo),
        a.astNode = none → b.astNode = some nb → getSorter d a b = -1) ∧
    (∀ (d : DisplayType) (a b : GraphQLNamedTypeMeta) (na : AstNodeInfo),
        a.astNode = some na → b.astNode = none → getSorter d a b = 1) ∧
    (∀ (a b : GraphQLNamedTypeMeta) (na nb : AstNodeInfo),
        a.astNode = some na → b.astNode = some nb →
        getSorter .asIs a b = (na.locStart : Int) - (nb.locStart : Int) ∧
        (getSorter .asIs a b < 0 ↔ na.locStart < nb.locStart)) := by
  refine ⟨?_, by decide, ?_, ?_, ?_⟩
  · intro a b na nb ha hb
    constructor
    · simp [getSorter, ha, hb]
    · simp [getSorter, ha, hb, sub_neg]
  · intro d a b nb ha hb
    simp [getSorter, ha, hb]
  · intro d a b na ha hb
    simp [getSorter, ha, hb]
  · intro a b na nb ha hb
    constructor
    · simp [getSorter, ha, hb]
    · simp only [getSorter, ha, hb, Option.isSome_some, true_or, if_true]
      omega

/-- C8 witness: the theorem applied at concrete inputs — a scalar
declaration sorts before an enum declaration in category-weight mode, and
a type with no AST node sorts before one with an AST node. -/
theorem c8_sorter_category_weights_and_position_witness :
    (getSorter .defaultMode ⟨some ⟨.scalarTypeDefinition, 7⟩⟩
        ⟨some ⟨.enumTypeDefinition, 3⟩⟩ < 0 ↔
      weights .scalarTypeDefinition < weights .enumTypeDefinition) ∧
    getSorter .asIs ⟨none⟩ ⟨some ⟨.objectTypeDefinition, 0⟩⟩ = -1 :=
  ⟨(c8_sorter_category_weights_and_position.1 _ _ _ _ rfl rfl).2,
   c8_sorter_category_weights_and_position.2.2.1 .asIs _ _ _ rfl rfl⟩

/-- C10 counterexample: `"--"` contains no ASCII letter or digit, yet
`toCamelCase` returns normally on it (the second dash is consumed as the
optional matched character and kept, uppercased to itself), contradicting
the claim that every alphanumeric-free input fails. -/
theorem c10_counterexample_dashes_return_normally :
    "--".toList.all (fun c => !c.isAlphanum) = true ∧
    toCamelCase "--" = some "-" := by
  constructor <;> decide

/-- C10 (amended): `toCamelCase` returns normally on every input with at
least one ASCII letter or digit, returns the first-uppercased string on
all-alphanumeric input, and fails by reading a character of the empty
cleared string on the empty input and on any single non-alphanumeric
character — but not on every alphanumeric-free input; operation naming
via `getCompiledOperationName` / `getCompiledOperationNamespaceName` is
total when both parts contain an alphanumeric character. -/
theorem c10_camel_case_totality :
    (∀ s : String, s.toList.any (·.isAlphanum) = true →
        (toCamelCase s).isSome = true) ∧
    (∀ (c : Char) (cs : List Char), ((c :: cs).all (·.isAlphanum)) = true →
        toCamelCase (String.mk (c :: cs)) = some (String.mk (c.toUpper :: cs))) ∧
    toCamelCase "" = none ∧
    (∀ c : Char, c.isAlphanum = false → toCamelCase (String.mk [c]) = none) ∧
    (∀ name op : String,
        name.toList.any (·.isAlphanum) = true →
        op.toList.any (·.isAlphanum) = true →
        (getCompiledOperationName name op).isSome = true ∧
        (getCompiledOperationNamespaceName name op).isSome = true) := by
  have hsome : ∀ s : String, s.toList.any (·.isAlphanum) = true →
      (toCamelCase s).isSome = true := by
    intro s h
    have := clearChars_ne_nil_of_any_alnum s.toList h
    unfold toCamelCase
    cases hc : clearChars s.toList with
    | nil => exact absurd hc this
    | cons c rest => simp
  refine ⟨hsome, ?_, by decide, ?_, ?_⟩
  · intro c cs h
    have hl : (String.mk (c :: cs)).toList = c :: cs := rfl
    have := clearChars_of_all_alnum (c :: cs) h
    simp [toCamelCase, hl, this]
  · intro c hc
    simp [toCamelCase, clearChars, hc]
  · intro name op hn ho
    constructor
    · have := hsome op ho
      unfold getCompiledOperationName
      cases hc : toCamelCase op with
      | none => rw [hc] at this; simp at this
      | some s => simp
    · have h1 := hsome name hn
      have h2 := hsome op ho
      unfold getCompiledOperationNamespaceName
      cases hc1 : toCamelCase name with
      | none => rw [hc1] at h1; simp at h1
      | some a =>
        cases hc2 : toCamelCase op with
        | none => rw [hc2] at h2; simp at h2
        | some b => simp

/-- C10 witness: the amended theorem applied at concrete inputs. -/
theorem c10_camel_case_totality_witness :
    (toCamelCase "updatePost").isSome = true ∧
    toCamelCase "Post9" = some "Post9" ∧
    (getCompiledOperationNamespaceName "updatePost" "mutation").isSome = true :=
  ⟨c10_camel_case_totality.1 "updatePost" (by decide),
   by simpa using c10_camel_case_totality.2.1 'P' "ost9".toList (by decide),
   (c10_camel_case_totality.2.2.2.2 "updatePost" "mutation" (by decide)
     (by decide)).2⟩

/-- C5 counterexample: a selection set holding only a fragment spread
projects to an empty flat field list and an empty (successful) namespace
field list — no error is raised and the unsupported selection is silently
dropped, contradicting the claimed fatal UnsupportedConstruct failure. -/
theorem c5_counterexample_fragment_spread_silently_dropped :
    selectionSetToObjectFields (.mk [.fragmentSpread "postFields"]) "Nsp" = [] ∧
    selectionsToNamespaceFields c3Schema [.fragmentSpread "postFields"]
      (some c3RootTD) "" = .ok [] := by
  constructor <;> rfl

/-- C5 (amended): projecting a selection set — into flat object fields or
into namespace fields — silently skips every selection node that is not a
plain field (fragment spreads and inline fragments); it never fails on
them and contributes no entry for them. -/
theorem c5_non_field_selections_silently_skipped :
    (∀ (name : String) (sels : List SelectionNode) (nspName : String),
        selectionSetToObjectFields (.mk (.fragmentSpread name :: sels)) nspName =
          selectionSetToObjectFields (.mk sels) nspName) ∧
    (∀ (sels : List SelectionNode) (nspName : String),
        selectionSetToObjectFields (.mk (.inlineFragment :: sels)) nspName =
          selectionSetToObjectFields (.mk sels) nspName) ∧
    (∀ (schema : GQLSchema) (name : String) (sels : List SelectionNode)
        (root : Option NamedTypeDef) (path : String),
        selectionsToNamespaceFields schema (.fragmentSpread name :: sels)
            root path =
          selectionsToNamespaceFields schema sels root path) ∧
    (∀ (schema : GQLSchema) (sels : List SelectionNode)
        (root : Option NamedTypeDef) (path : String),
        selectionsToNamespaceFields schema (.inlineFragment :: sels)
            root path =
          selectionsToNamespaceFields schema sels root path) := by
  refine ⟨?_, ?_, ?_, ?_⟩
  · intro name sels nspName
    rfl
  · intro sels nspName
    rfl
  · intro schema name sels root path
    rw [selectionsToNamespaceFields]
    intro node h
    exact SelectionNode.noConfusion h
  · intro schema sels root path
    rw [selectionsToNamespaceFields]
    intro node h
    exact SelectionNode.noConfusion h

/-- C9: extracting `PostAuthor` yields the flat field list
`name, registeredAt, bannedAt` in declaration order, a namespace whose
`bannedAt` renders with the nullable suffix and whose `registeredAt`
renders without it, and the aggregated import list containing `DateTime`
exactly once. -/
theorem c9_postauthor_extraction :
    (parseObjectOrInterfaceType postAuthorTD).map
        (fun e => e.fields.fields.map (fun f => f.name)) =
      some ["name", "registeredAt", "bannedAt"] ∧
    (parseObjectOrInterfaceType postAuthorTD).map
        (fun e => e.nsp.fields.map (fun f => (f.name, f.type))) =
      some [("name", "string"), ("registeredAt", "DateTime"),
        ("bannedAt", "DateTime | null")] ∧
    (parseObjectOrInterfaceType postAuthorTD).map (fun e => e.importTypes) =
      some ["DateTime"] ∧
    (parseObjectOrInterfaceType postAuthorTD).map
        (fun e => e.importTypes.count "DateTime") = some 1 := by
  refine ⟨?_, ?_, ?_, ?_⟩ <;> rfl

/-- C6 counterexample: `c6Schema` configures no mutation root, yet
assembling the mutation `c6Node` (whose selection set holds only a
fragment spread) completes successfully — no MissingRootType or any other
failure is raised, contradicting the claim that assembly fails whenever
the schema lacks a root for the operation's kind. -/
theorem c6_counterexample_missing_root_no_failure :
    getOperationRootNode c6Schema .mutation = none ∧
    isOkExcept (parseOperationDefinitionNode c6Node c6Schema
      "mutation doThing { ...postFields }") = true := by
  constructor <;> rfl

/-- C6 (amended): resolving the operation's root type maps
query/mutation/subscription to the schema's configured root for that
kind, with no missing-root check — an absent root flows on as the absent
value.  Assembly raises no dedicated MissingRootType error: with no
configured root it still completes successfully when the selection set
contains no plain field selection, and fails with the generic
runtime-type error (from dereferencing the absent root inside `getIn`)
exactly when a field selection forces a descent. -/
theorem c6_missing_root_behaviour :
    (∀ (schema : GQLSchema) (op : OperationTypeNode),
        getOperationRootNode schema op =
          match op with
          | .query => schema.queryType
          | .mutation => schema.mutationType
          | .subscription => schema.subscriptionType) ∧
    (∀ (node : OperationDefinitionNode) (schema : GQLSchema) (text : String),
        getOperationRootNode schema node.operation = none →
        node.selectionSet.selections.any isFieldSelection = false →
        (getCompiledOperationNamespaceName node.name
            (operationTypeString node.operation)).isSome = true →
        isOkExcept (parseOperationDefinitionNode node schema text) = true) ∧
    (∀ (node : OperationDefinitionNode) (schema : GQLSchema) (text : String),
        getOperationRootNode schema node.operation = none →
        node.selectionSet.selections.any isFieldSelection = true →
        (getCompiledOperationNamespaceName node.name
            (operationTypeString node.operation)).isSome = true →
        parseOperationDefinitionNode node schema text =
          .error jsTypeError) := by
  refine ⟨?_, ?_, ?_⟩
  · intro schema op
    cases op <;> rfl
  · intro node schema text hroot hnof hns
    obtain ⟨nsName, hnsName⟩ := Option.isSome_iff_exists.1 hns
    obtain ⟨opS, hopS⟩ := toCamelCase_operationTypeString node.operation
    have hcn : getCompiledOperationName node.name
        (operationTypeString node.operation) = some (node.name ++ opS) := by
      simp [getCompiledOperationName, hopS]
    obtain ⟨sels, hss⟩ : ∃ sels, node.selectionSet = SelectionSetNode.mk sels := by
      cases node.selectionSet with
      | mk sels => exact ⟨sels, rfl⟩
    have hanysel : sels.any isFieldSelection = false := by
      rw [hss] at hnof
      simpa [SelectionSetNode.selections] using hnof
    have hok : selectionSetToNamespaceFields schema node.selectionSet
        none "" = .ok [] := by
      rw [hss]
      simpa [selectionSetToNamespaceFields] using
        selectionsToNamespaceFields_no_field schema sels "" hanysel
    simp [parseOperationDefinitionNode, hcn, hnsName, hroot,
      selectionSetToRootNamespace, hok, isOkExcept]
  · intro node schema text hroot hasf hns
    obtain ⟨nsName, hnsName⟩ := Option.isSome_iff_exists.1 hns
    obtain ⟨opS, hopS⟩ := toCamelCase_operationTypeString node.operation
    have hcn : getCompiledOperationName node.name
        (operationTypeString node.operation) = some (node.name ++ opS) := by
      simp [getCompiledOperationName, hopS]
    obtain ⟨sels, hss⟩ : ∃ sels, node.selectionSet = SelectionSetNode.mk sels := by
      cases node.selectionSet with
      | mk sels => exact ⟨sels, rfl⟩
    have hanysel : sels.any isFieldSelection = true := by
      rw [hss] at hasf
      simpa [SelectionSetNode.selections] using hasf
    have herr : selectionSetToNamespaceFields schema node.selectionSet
        none "" = .error jsTypeError := by
      rw [hss]
      simpa [selectionSetToNamespaceFields] using
        selectionsToNamespaceFields_field_missing_root schema sels "" hanysel
    simp [parseOperationDefinitionNode, hcn, hnsName, hroot,
      selectionSetToRootNamespace, herr]

/-- C6 witness: the amended theorem applied at the concrete
root-less mutation fixture. -/
theorem c6_missing_root_behaviour_witness :
    isOkExcept (parseOperationDefinitionNode c6Node c6Schema "") = true :=
  c6_missing_root_behaviour.2.1 c6Node c6Schema "" rfl (by decide) (by decide)

/-- C7: for every object/interface or input-object type, the extracted
entity's flat field list and namespace field list carry identical
field-name sequences (same names, same order — hence, when the source
field map is duplicate-free, each name exactly once in each), the flat
list and the namespace share the entity's formatted name, and every flat
field's type is the dotted path `<entity name>.<field name>` into the
same-named namespace field. -/
theorem c7_flat_and_namespace_field_lists_aligned :
    (∀ (t : NamedTypeDef) (e : Entity), parseObjectOrInterfaceType t = some e →
        e.fields.fields.map (fun f => f.name) =
            t.fields.map (fun f => f.name) ∧
        e.nsp.fields.map (fun f => f.name) = t.fields.map (fun f => f.name) ∧
        e.fields.name = e.nsp.name ∧
        (∀ f ∈ e.fields.fields, f.type = e.nsp.name ++ "." ++ f.name) ∧
        ((t.fields.map (fun f => f.name)).Nodup →
          (e.fields.fields.map (fun f => f.name)).Nodup ∧
          (e.nsp.fields.map (fun f => f.name)).Nodup)) ∧
    (∀ (t : NamedTypeDef) (e : Entity), parseInputObjectType t = some e →
        e.fields.fields.map (fun f => f.name) =
            t.fields.map (fun f => f.name) ∧
        e.nsp.fields.map (fun f => f.name) = t.fields.map (fun f => f.name) ∧
        e.fields.name = e.nsp.name ∧
        (∀ f ∈ e.fields.fields, f.type = e.nsp.name ++ "." ++ f.name) ∧
        ((t.fields.map (fun f => f.name)).Nodup →
          (e.fields.fields.map (fun f => f.name)).Nodup ∧
          (e.nsp.fields.map (fun f => f.name)).Nodup)) := by
  constructor
  · intro t e he
    unfold parseObjectOrInterfaceType at he
    cases hcc : toCamelCase t.name with
    | none => rw [hcc] at he; simp at he
    | some fn =>
      rw [hcc] at he
      simp only [Option.map_some', Option.some.injEq] at he
      subst he
      obtain ⟨hflat, hnspNames, hfname, hnspname, -⟩ :=
        objectFold_spec fn t.fields ⟨⟨fn, []⟩, ⟨fn, t.description, []⟩, []⟩
      have hflatNames :
          ((t.fields.foldl (parseObjectOrInterfaceField fn)
            ⟨⟨fn, []⟩, ⟨fn, t.description, []⟩, []⟩).fields.fields.map
              (fun f => f.name)) = t.fields.map (fun f => f.name) := by
        rw [hflat]
        simp
      have hnspNames' :
          ((t.fields.foldl (parseObjectOrInterfaceField fn)
            ⟨⟨fn, []⟩, ⟨fn, t.description, []⟩, []⟩).nsp.fields.map
              (fun f => f.name)) = t.fields.map (fun f => f.name) := by
        rw [hnspNames]
        simp
      refine ⟨hflatNames, hnspNames', ?_, ?_, ?_⟩
      · rw [hfname, hnspname]
      · intro f hf
        rw [hflat] at hf
        simp only [List.nil_append, List.mem_map] at hf
        obtain ⟨g, -, rfl⟩ := hf
        rw [hnspname]
      · intro hnd
        rw [hflatNames, hnspNames']
        exact ⟨hnd, hnd⟩
  · intro t e he
    unfold parseInputObjectType at he
    cases hcc : toCamelCase t.name with
    | none => rw [hcc] at he; simp at he
    | some fn =>
      rw [hcc] at he
      simp only [Option.map_some', Option.some.injEq] at he
      subst he
      obtain ⟨hflat, hnspNames, hfname, hnspname, -⟩ :=
        inputFold_spec fn t.fields ⟨⟨fn, []⟩, ⟨fn, t.description, []⟩, []⟩
      have hflatNames :
          ((t.fields.foldl (parseInputObjectField fn)
            ⟨⟨fn, []⟩, ⟨fn, t.description, []⟩, []⟩).fields.fields.map
              (fun f => f.name)) = t.fields.map (fun f => f.name) := by
        rw [hflat]
        simp
      have hnspNames' :
          ((t.fields.foldl (parseInputObjectField fn)
            ⟨⟨fn, []⟩, ⟨fn, t.description, []⟩, []⟩).nsp.fields.map
              (fun f => f.name)) = t.fields.map (fun f => f.name) := by
        rw [hnspNames]
        simp
      refine ⟨hflatNames, hnspNames', ?_, ?_, ?_⟩
      · rw [hfname, hnspname]
      · intro f hf
        rw [hflat] at hf
        simp only [List.nil_append, List.mem_map] at hf
        obtain ⟨g, -, rfl⟩ := hf
        rw [hnspname]
      · intro hnd
        rw [hflatNames, hnspNames']
        exact ⟨hnd, hnd⟩

/-- C7 witness: the theorem applied to the one-field object type `Post`
and the `PostsInput` input type, whose extracted entities are spelled out
concretely. -/
theorem c7_flat_and_namespace_field_lists_aligned_witness :
    postEntity.fields.fields.map (fun f => f.name) =
        postTD.fields.map (fun f => f.name) ∧
    postsInputEntity.nsp.fields.map (fun f => f.name) =
        postsInputTD.fields.map (fun f => f.name) :=
  ⟨(c7_flat_and_namespace_field_lists_aligned.1 postTD postEntity rfl).1,
   (c7_flat_and_namespace_field_lists_aligned.2 postsInputTD
     postsInputEntity rfl).2.1⟩

/-- C3 counterexample: selecting the two sibling `DateTime`-typed fields
`updatedAt` and `deletedAt` makes `selectionSetToRootNamespace` emit
the list `["DateTime", "DateTime"]` — the per-field lists are
concatenated with no cross-field deduplication, so the root namespace
lists a duplicate, contradicting the claimed no-duplicate invariant. -/
theorem c3_counterexample_duplicate_root_namespace_import :
    (selectionSetToRootNamespace c3Schema c3SelectionSet "PostsQuery"
        ⟨"Arguments", [], []⟩ (some c3RootTD)).map (fun ns => ns.importTypes) =
      .ok ["DateTime", "DateTime"] ∧
    ¬ (["DateTime", "DateTime"] : List String).Nodup := by
  constructor
  · rfl
  · decide

/-- C3 (amended): import lists produced with fresh accumulators by the
two type-reference resolvers are exactly the first-seen fold of the
reference's named-leaf stream — hence duplicate-free and free of built-in
scalar names; the entity extractors' aggregated lists are the first-seen
fold of their fields' import streams, duplicate-free and scalar-free;
`getImportTypes` on any operation namespace field is duplicate-free; but
the root-namespace list produced from a selection set is the plain
concatenation of the per-field `getImportTypes` lists — scalar-free, yet
able to repeat a name across sibling fields. -/
theorem c3_import_list_invariants :
    (∀ (node : TypeNode) (b : Bool),
        (getTypeNodeDefinition node [] b).importTypes =
            (namedTypeNamesOf node).foldl pushName [] ∧
        (getTypeNodeDefinition node [] b).importTypes.Nodup ∧
        (getTypeNodeDefinition node [] b).importTypes.all
          (fun t => !isGQLScalarType t) = true) ∧
    (∀ (ty : GQLType) (b : Bool),
        (getIOTypeDefinition ty [] b).importTypes =
            (namedNamesOfGQL ty).foldl pushName [] ∧
        (getIOTypeDefinition ty [] b).importTypes.Nodup ∧
        (getIOTypeDefinition ty [] b).importTypes.all
          (fun t => !isGQLScalarType t) = true) ∧
    (∀ (t : NamedTypeDef) (e : Entity), parseObjectOrInterfaceType t = some e →
        e.importTypes =
            (t.fields.map entityFieldImportStream).flatten.foldl addType [] ∧
        e.importTypes.Nodup ∧
        e.importTypes.all (fun t => !isGQLScalarType t) = true) ∧
    (∀ (t : NamedTypeDef) (e : Entity), parseInputObjectType t = some e →
        e.importTypes =
            (t.fields.map inputFieldImportStream).flatten.foldl addType [] ∧
        e.importTypes.Nodup ∧
        e.importTypes.all (fun t => !isGQLScalarType t) = true) ∧
    (∀ (f : OperationNamespaceField), (getImportTypes f).Nodup) ∧
    (∀ (schema : GQLSchema) (ss : SelectionSetNode) (cname : String)
        (args : PreparedObject) (root : Option NamedTypeDef)
        (ns : OperationRootNamespace),
        selectionSetToRootNamespace schema ss cname args root = .ok ns →
        ns.importTypes = getImportTypesList ns.fields ∧
        ns.importTypes.all (fun t => !isGQLScalarType t) = true) := by
  refine ⟨?_, ?_, ?_, ?_, getImportTypes_nodup, ?_⟩
  · intro node b
    refine ⟨getTypeNodeDefinition_importTypes node [] b, ?_, ?_⟩
    · rw [getTypeNodeDefinition_importTypes]
      exact foldl_pushName_nodup List.nodup_nil
    · rw [List.all_eq_true]
      intro x hx
      rcases mem_foldl_pushName_scalarFree
          ((getTypeNodeDefinition_importTypes node [] b) ▸ hx) with h | h
      · simp at h
      · simp [h]
  · intro ty b
    refine ⟨getIOTypeDefinition_importTypes ty [] b, ?_, ?_⟩
    · rw [getIOTypeDefinition_importTypes]
      exact foldl_pushName_nodup List.nodup_nil
    · rw [List.all_eq_true]
      intro x hx
      rcases mem_foldl_pushName_scalarFree
          ((getIOTypeDefinition_importTypes ty [] b) ▸ hx) with h | h
      · simp at h
      · simp [h]
  · intro t e he
    unfold parseObjectOrInterfaceType at he
    cases hcc : toCamelCase t.name with
    | none => rw [hcc] at he; simp at he
    | some fn =>
      rw [hcc] at he
      simp only [Option.map_some', Option.some.injEq] at he
      subst he
      obtain ⟨-, -, -, -, himp⟩ :=
        objectFold_spec fn t.fields ⟨⟨fn, []⟩, ⟨fn, t.description, []⟩, []⟩
      refine ⟨himp, ?_, ?_⟩
      · rw [himp]
        exact foldl_addType_nodup List.nodup_nil
      · rw [List.all_eq_true]
        intro x hx
        rw [himp] at hx
        rcases mem_foldl_addType hx with h | h
        · simp at h
        · rcases List.mem_flatten.1 h with ⟨l, hl, hxl⟩
          rcases List.mem_map.1 hl with ⟨f, -, rfl⟩
          simp [entityFieldImportStream_scalarFree f x hxl]
  · intro t e he
    unfold parseInputObjectType at he
    cases hcc : toCamelCase t.name with
    | none => rw [hcc] at he; simp at he
    | some fn =>
      rw [hcc] at he
      simp only [Option.map_some', Option.some.injEq] at he
      subst he
      obtain ⟨-, -, -, -, himp⟩ :=
        inputFold_spec fn t.fields ⟨⟨fn, []⟩, ⟨fn, t.description, []⟩, []⟩
      refine ⟨himp, ?_, ?_⟩
      · rw [himp]
        exact foldl_addType_nodup List.nodup_nil
      · rw [List.all_eq_true]
        intro x hx
        rw [himp] at hx
        rcases mem_foldl_addType hx with h | h
        · simp at h
        · rcases List.mem_flatten.1 h with ⟨l, hl, hxl⟩
          rcases List.mem_map.1 hl with ⟨f, -, rfl⟩
          simp [getIO_fresh_scalarFree f.type true x hxl]
  · intro schema ss cname args root ns hns
    obtain ⟨sels, rfl⟩ : ∃ sels, ss = SelectionSetNode.mk sels := by
      cases ss with
      | mk sels => exact ⟨sels, rfl⟩
    unfold selectionSetToRootNamespace at hns
    simp only [selectionSetToNamespaceFields] at hns
    revert hns
    cases hch : selectionsToNamespaceFields schema sels root "" with
    | error e =>
      intro hns
      simp at hns
    | ok nspFields =>
      intro hns
      simp only [Except.ok.injEq] at hns
      subst hns
      refine ⟨rfl, ?_⟩
      rw [List.all_eq_true]
      intro x hx
      simp [selectionsToNamespaceFields_scalarFree schema sels root ""
        nspFields hch x hx]

/-- C3 witness: the amended theorem applied at the concrete two-field
selection fixture, whose root namespace is spelled out concretely. -/
theorem c3_import_list_invariants_witness :
    c3Namespace.importTypes = getImportTypesList c3Namespace.fields ∧
    c3Namespace.importTypes.all (fun t => !isGQLScalarType t) = true :=
  c3_import_list_invariants.2.2.2.2.2 c3Schema c3SelectionSet "PostsQuery"
    ⟨"Arguments", [], []⟩ (some c3RootTD) c3Namespace rfl
